import Mathlib

/-!
# Verification of the birthday-bot scheduling core (src/bot.py)

Shallow embedding of the scheduling subsystem of `src/bot.py`:
calendar dates and pytz-style timezone handling, `parse_date`,
`next_occurrence`, the jobs table (`add_job`, `remove_jobs_for_birthday`),
the in-process scheduler registrations made by `schedule_for_birthday` and
`reschedule_all_from_db`, the dispatcher `send_birthday_message`, the
delete flow `delete_choose`, and the aiogram finite-state machine of the
`/add` conversation.

Conventions:
* Python `datetime.date` is a record of (year, month, day); the constructor
  `date(y, m, d)` raises `ValueError` on invalid triples, embedded as
  `mkDate : Int → Nat → Nat → Option Date`.
* Naive `datetime` values are embedded by their absolute minute count since
  1970-01-01 00:00 (via the standard civil-from-days ordinal), because
  Python `datetime` arithmetic (`- timedelta(days=n)`) is exactly
  arithmetic on that count.
* A pytz timezone is embedded as a pair of offset functions (minutes east
  of UTC): `offsetAtLocal` drives `tz.localize` (offset chosen from the
  naive local fields, `is_dst=False` disambiguation) and `offsetAtInstant`
  drives conversion of a UTC instant back to local wall-clock time.
* A pytz-aware datetime (as produced by `tz.localize`) is a pair of its
  naive local minute count and the fixed offset attached at localization;
  `dt - timedelta(days=n)` on such a value shifts the naive count and keeps
  the attached offset, exactly as pytz/`datetime` do.
-/

namespace BirthdayBot

/-- Gregorian leap-year test, as Python's `calendar`/`datetime` use. -/
def isLeap (y : Int) : Bool :=
  (y % 4 == 0 && y % 100 != 0) || (y % 400 == 0)

/-- Number of days in month `m` of year `y` (0 for an invalid month). -/
def daysInMonth (y : Int) (m : Nat) : Nat :=
  match m with
  | 1 => 31
  | 2 => if isLeap y then 29 else 28
  | 3 => 31
  | 4 => 30
  | 5 => 31
  | 6 => 30
  | 7 => 31
  | 8 => 31
  | 9 => 30
  | 10 => 31
  | 11 => 30
  | 12 => 31
  | _ => 0

/-- A civil date, the embedding of Python's `datetime.date` value. -/
structure Date where
  y : Int
  m : Nat
  d : Nat
deriving DecidableEq, Repr

/-- `date(y, m, d)`: Python's constructor validates and raises `ValueError`
on an invalid triple; `none` embeds the raised exception. -/
def mkDate (y : Int) (m d : Nat) : Option Date :=
  if 1 ≤ m ∧ m ≤ 12 ∧ 1 ≤ d ∧ d ≤ daysInMonth y m then some ⟨y, m, d⟩ else none

/-- Python `date < date` comparison (lexicographic on (year, month, day)). -/
def dateLt (a b : Date) : Bool :=
  if a.y = b.y then
    if a.m = b.m then decide (a.d < b.d) else decide (a.m < b.m)
  else decide (a.y < b.y)

/-- Days since 1970-01-01 of a civil date (Howard Hinnant's
`days_from_civil` algorithm, the ordinal underlying Python's `date`
arithmetic up to the fixed epoch shift). -/
def daysFromCivil (y : Int) (m d : Nat) : Int :=
  let y2 : Int := if m ≤ 2 then y - 1 else y
  let era : Int := Int.fdiv y2 400
  let yoe : Int := y2 - era * 400
  let mp : Int := (Int.ofNat m + 9) % 12
  let doy : Int := Int.fdiv (153 * mp + 2) 5 + (Int.ofNat d - 1)
  let doe : Int := yoe * 365 + Int.fdiv yoe 4 - Int.fdiv yoe 100 + doy
  era * 146097 + doe - 719468

/-- Absolute minute count of the naive local datetime `(date, minute of
day)`: the embedding of a naive Python `datetime` (seconds are never
nonzero in this program). -/
def toAbsMin (dt : Date) (minuteOfDay : Nat) : Int :=
  daysFromCivil dt.y dt.m dt.d * 1440 + Int.ofNat minuteOfDay

/-- A pytz timezone: offsets in minutes east of UTC.  `offsetAtLocal` is
keyed by the naive local minute count (what `tz.localize` consults, with
the default `is_dst=False` disambiguation); `offsetAtInstant` is keyed by
the UTC instant (what rendering an instant in the zone consults). -/
structure Zone where
  offsetAtLocal : Int → Int
  offsetAtInstant : Int → Int

/-- A pytz-aware datetime as produced by `tz.localize`: the naive local
minute count together with the fixed UTC offset attached at localization
time. -/
structure Aware where
  naiveMin : Int
  offMin : Int
deriving DecidableEq, Repr

/-- `tz.localize(naive)`: attach the offset the zone prescribes for these
naive local fields. -/
def localize (z : Zone) (naiveMin : Int) : Aware :=
  ⟨naiveMin, z.offsetAtLocal naiveMin⟩

/-- `to_utc` (src/bot.py): `dt_local.astimezone(pytz.utc)`, as the UTC
instant in minutes. -/
def to_utc (a : Aware) : Int :=
  a.naiveMin - a.offMin

/-- `aware - timedelta(days = n)` in pytz/`datetime` semantics: the naive
fields shift by `n` civil days while the attached offset is unchanged. -/
def awareSubDays (a : Aware) (n : Nat) : Aware :=
  ⟨a.naiveMin - Int.ofNat n * 1440, a.offMin⟩

/-- Local wall-clock minute-of-day at which UTC instant `i` is rendered in
zone `z`. -/
def localMinuteOfDay (z : Zone) (i : Int) : Int :=
  (i + z.offsetAtInstant i) % 1440

/-- The UTC zone: both offset functions are constantly zero. -/
def utcZone : Zone := ⟨fun _ => 0, fun _ => 0⟩

/-- Model of pytz's `Europe/Berlin` in a window around the March 2025
transition: CET (+60) before the transition, CEST (+120) after.  In local
naive terms the spring-2025 transition skips 02:00–03:00 on 2025-03-30
(`is_dst=False` localization of earlier wall times yields +60); in UTC
terms the offset changes at 2025-03-30 01:00 UTC. -/
def berlinModel : Zone :=
  ⟨fun n => if toAbsMin ⟨2025, 3, 30⟩ 180 ≤ n then 120 else 60,
   fun i => if toAbsMin ⟨2025, 3, 30⟩ 60 ≤ i then 120 else 60⟩

/-! ## `parse_date` (src/bot.py lines 167–176)

`parse_date` splits on `"."`.  With two components it runs
`datetime.strptime(s, "%d.%m")`, whose default year is 1900, so the
day-of-month is validated against year 1900 (in particular `"29.02"`
raises `ValueError` because 1900 is not a leap year), and returns
`date(1900, month, day)`.  With three components it runs
`datetime.strptime(s, "%d.%m.%Y")` and returns the parsed date.  The
embeddings below model the two branches on already-split numeric
components; `none` embeds the raised `ValueError`. -/

/-- `parse_date` on input `"DD.MM"`: strptime with `%d.%m` validates the
(day, month) pair in its default year 1900 and yields `date(1900, m, d)`. -/
def parse_date_dm (dd mm : Nat) : Option Date :=
  match mkDate 1900 mm dd with
  | some _ => some ⟨1900, mm, dd⟩
  | none => none

/-- `parse_date` on input `"DD.MM.YYYY"`: strptime with `%d.%m.%Y`
validates the full triple and yields that date. -/
def parse_date_dmy (dd mm : Nat) (yyyy : Int) : Option Date :=
  mkDate yyyy mm dd

/-! ## `next_occurrence` (src/bot.py lines 178–187)

```python
def next_occurrence(bday, tz):
    now = datetime.now(tz)
    year = now.year
    try_date = date(year, bday.month, bday.day)
    if try_date < now.date():
        try_date = date(year + 1, bday.month, bday.day)
    dt_local = datetime.combine(try_date, time(9, 0))
    return tz.localize(dt_local)
```

`now` enters only through `now.year` and `now.date()`, i.e. through the
local civil date of the current instant in `tz`; the embedding takes that
local date `nowD` as a parameter.  `none` embeds a `ValueError` raised by
either `date(...)` construction. -/

/-- `next_occurrence(bday, tz)` where `nowD` is the local civil date of
`datetime.now(tz)`.  Returns the pytz-aware localized 09:00 datetime, or
`none` when a `date(...)` constructor raises. -/
def next_occurrence (bday : Date) (z : Zone) (nowD : Date) : Option Aware :=
  match mkDate nowD.y bday.m bday.d with
  | none => none
  | some t =>
    match (if dateLt t nowD then mkDate (nowD.y + 1) bday.m bday.d else some t) with
    | none => none
    | some td => some (localize z (toAbsMin td 540))

/-! ## Durable store and in-process scheduler state

The sqlite tables `birthdays` and `jobs` and APScheduler's job set are
embedded as lists.  The job id string `"bday:{id}:{kind}:{iso}"` is an
injective encoding of the triple (birthday id, kind, UTC run instant), so
it is embedded as that triple. -/

/-- Firing kind: the `kind` column, `"day"` or `"before"`. -/
inductive JobKind where
  | day
  | before
deriving DecidableEq, Repr

/-- The job id `f"bday:{birthday_id}:{kind}:{run_at_utc.isoformat()}"`,
embedded by its (injectively encoded) components. -/
structure JobId where
  bid : Nat
  kind : JobKind
  runAt : Int
deriving DecidableEq, Repr

/-- A row of the `jobs` table. -/
structure Job where
  jid : JobId
  birthdayId : Nat
  runAt : Int
  kind : JobKind
deriving DecidableEq, Repr

/-- A pending APScheduler job: id, run instant and the
`send_birthday_message` kwargs payload. -/
structure STimer where
  jid : JobId
  runAt : Int
  payloadBid : Nat
  payloadKind : JobKind
deriving DecidableEq, Repr

/-- A row of the `birthdays` table. -/
structure BirthdayRow where
  id : Nat
  chatId : Nat
  name : String
  username : Option String
  bdate : Date
  remindDaysBefore : Option Nat
  remindOnDay : Bool
  customMessage : Option String
  tzName : String
deriving DecidableEq, Repr

/-- A row of the `chat_settings` table. -/
structure ChatSettings where
  chatId : Nat
  tzName : String
  defaultMessage : String
deriving DecidableEq, Repr

/-- The schema default for `chat_settings.default_message`. -/
def defaultMessageRu : String := "У {name} сегодня день рождения! 🎉"

/-- Combined durable store plus in-process scheduler state. -/
structure SysState where
  birthdays : List BirthdayRow
  settings : List ChatSettings
  jobs : List Job
  sched : List STimer
deriving Repr

/-- `get_birthday(birthday_id)`: `SELECT * FROM birthdays WHERE id=?`. -/
def get_birthday (s : SysState) (bid : Nat) : Option BirthdayRow :=
  s.birthdays.find? (fun b => b.id == bid)

/-- `get_chat_settings(chat_id)`: returns the row, inserting the default
row first when none exists.  Yields the settings value read and the
updated `chat_settings` table. -/
def get_chat_settings (rows : List ChatSettings) (chatId : Nat) :
    ChatSettings × List ChatSettings :=
  match rows.find? (fun r => r.chatId == chatId) with
  | some r => (r, rows)
  | none => (⟨chatId, "UTC", defaultMessageRu⟩, rows ++ [⟨chatId, "UTC", defaultMessageRu⟩])

/-- `add_job` (lines 142–147): `INSERT OR IGNORE INTO jobs ...` keyed by
the primary key `id` (the `UNIQUE(birthday_id, kind, run_at)` constraint
coincides with it because the id encodes exactly that triple). -/
def add_job (jobs : List Job) (jid : JobId) (bid : Nat) (runAt : Int)
    (kind : JobKind) : List Job :=
  if jobs.any (fun j => j.jid == jid) then jobs
  else jobs ++ [⟨jid, bid, runAt, kind⟩]

/-- `remove_jobs_for_birthday` (lines 155–158):
`DELETE FROM jobs WHERE birthday_id=?`. -/
def remove_jobs_for_birthday (jobs : List Job) (bid : Nat) : List Job :=
  jobs.filter (fun j => ¬ j.birthdayId = bid)

/-- `delete_birthday` (lines 136–140): `DELETE FROM birthdays WHERE id=?
AND chat_id=?`, returning whether a row was deleted. -/
def delete_birthday (rows : List BirthdayRow) (bid chatId : Nat) :
    List BirthdayRow × Bool :=
  (rows.filter (fun b => ¬ (b.id = bid ∧ b.chatId = chatId)),
   rows.any (fun b => b.id == bid && b.chatId == chatId))

/-- The successful branch of `delete_choose` (lines 482–496): after the id
parses, `delete_birthday`; when it deleted a row, `remove_jobs_for_birthday`.
The in-process scheduler is never touched. -/
def delete_flow (s : SysState) (bid chatId : Nat) : SysState :=
  let r := delete_birthday s.birthdays bid chatId
  if r.2 then
    { s with birthdays := r.1, jobs := remove_jobs_for_birthday s.jobs bid }
  else
    { s with birthdays := r.1 }

/-! ## Registration, `schedule_for_birthday`, `reschedule_all_from_db` -/

/-- The registration pattern repeated in both branches of
`schedule_for_birthday` (lines 233–240 and 243–253): `add_job` into the
durable table, then `scheduler.add_job` guarded by
`if not scheduler.get_job(job_id)`. -/
def register (s : SysState) (jid : JobId) (bid : Nat) (runAt : Int)
    (kind : JobKind) : SysState :=
  let jobs := add_job s.jobs jid bid runAt kind
  let sched :=
    if s.sched.any (fun t => t.jid == jid) then s.sched
    else s.sched ++ [⟨jid, runAt, bid, kind⟩]
  { s with jobs := jobs, sched := sched }

/-- `schedule_for_birthday` (lines 222–253), with the timezone already
resolved to `z` (the code resolves `row["timezone"] or chat timezone` via
`pytz.timezone`) and `nowD` the local civil date of `datetime.now(tz)`.
Computes the next 09:00 occurrence, registers the on-day job when
`remind_on_day`, then registers the before job at
`on_day_local - timedelta(days=remind_days_before)` when that column is
non-null.  `none` embeds a `ValueError` propagating from
`next_occurrence`. -/
def schedule_for_birthday (row : BirthdayRow) (z : Zone) (nowD : Date)
    (s : SysState) : Option SysState :=
  match next_occurrence row.bdate z nowD with
  | none => none
  | some onDayLocal =>
    let s1 :=
      if row.remindOnDay then
        let runAt := to_utc onDayLocal
        register s ⟨row.id, JobKind.day, runAt⟩ row.id runAt JobKind.day
      else s
    match row.remindDaysBefore with
    | none => some s1
    | some days =>
      let beforeLocal := awareSubDays onDayLocal days
      let runAt := to_utc beforeLocal
      some (register s1 ⟨row.id, JobKind.before, runAt⟩ row.id runAt JobKind.before)

/-- One iteration of the `reschedule_all_from_db` loop (lines 258–271):
skip the job when its run instant is strictly before `now`, when its
birthday row no longer exists, or when the scheduler already has its id;
otherwise register the stored job under its stored id. -/
def rehydrate_step (s : SysState) (now : Int) (j : Job) : SysState :=
  if j.runAt < now then s
  else
    match get_birthday s j.birthdayId with
    | none => s
    | some _ =>
      if s.sched.any (fun t => t.jid == j.jid) then s
      else { s with sched := s.sched ++ [⟨j.jid, j.runAt, j.birthdayId, j.kind⟩] }

/-- `reschedule_all_from_db` (lines 255–271) at instant `now`: fold the
rehydration step over the stored jobs list (`list_all_jobs`). -/
def reschedule_all_from_db (s : SysState) (now : Int) : SysState :=
  s.jobs.foldl (fun acc j => rehydrate_step acc now j) s

/-! ## `send_birthday_message` (lines 201–220) and firing -/

/-- Python truthiness of an optional string column (`NULL` and `""` are
falsy). -/
def pyTruthy (o : Option String) : Bool :=
  match o with
  | some s => s != ""
  | none => false

/-- `a or b` for an optional string against a string default, as in
`b["custom_message"] or settings["default_message"]`. -/
def pyOrStr (o : Option String) (dflt : String) : String :=
  match o with
  | some s => if s = "" then dflt else s
  | none => dflt

/-- Python `str.strip("@")`: remove leading and trailing `'@'`
characters. -/
def stripAt (s : String) : String :=
  String.mk (((s.toList.dropWhile (fun c => c = '@')).reverse.dropWhile
    (fun c => c = '@')).reverse)

/-- Left-to-right non-overlapping replacement on character lists, the
semantics of Python `str.replace`; `fuel` bounds the recursion (each step
consumes at least one character, so the input length suffices). -/
def replaceAllAux (pat rep : List Char) : Nat → List Char → List Char
  | 0, l => l
  | _ + 1, [] => []
  | fuel + 1, c :: rest =>
    if pat.isPrefixOf (c :: rest) ∧ pat ≠ [] then
      rep ++ replaceAllAux pat rep fuel (rest.drop (pat.length - 1))
    else c :: replaceAllAux pat rep fuel rest

/-- Python `s.replace(pat, rep)` for a non-empty pattern: replace every
non-overlapping occurrence, scanning left to right. -/
def replaceAll (s pat rep : String) : String :=
  String.mk (replaceAllAux pat.toList rep.toList s.toList.length s.toList)

/-- The delivered text as claim C8 words it, written independently of
`send_birthday_message` for comparison: the definition's custom message
when one is set (non-empty), else the chat's default template; every
occurrence of `{name}` replaced by the name; a ` (@username)` annotation
appended when a handle is present (the stored handle stripped of `'@'`
characters). -/
def renderSpecC8 (custom : Option String) (dflt name : String)
    (username : Option String) : String :=
  (replaceAll
    (match custom with
     | some c => if c = "" then dflt else c
     | none => dflt) "{name}" name)
  ++ (match username with
      | some u => if u = "" then "" else " (@" ++ stripAt u ++ ")"
      | none => "")

/-- Outcome of one `send_birthday_message` call: messages handed to
`bot.send_message` that succeeded, and `logger.error` lines. -/
structure DispatchResult where
  sent : List (Nat × String)
  logged : List String
deriving DecidableEq, Repr

/-- `send_birthday_message(birthday_id, kind)`.  `transport chat text`
models `bot.send_message`, with `Except.error` a raised exception; the
`try/except` catches it and logs.  Returns the updated state (the only
mutation is the lazy `chat_settings` insert) and the dispatch outcome.
Returning a plain value rather than an exceptional one embeds that the
function never propagates an error to its caller. -/
def send_birthday_message (s : SysState)
    (transport : Nat → String → Except String Unit) (bid : Nat)
    (kind : JobKind) : SysState × DispatchResult :=
  match get_birthday s bid with
  | none => (s, ⟨[], []⟩)
  | some b =>
    let chatId := b.chatId
    let st := get_chat_settings s.settings chatId
    let template := pyOrStr b.customMessage st.1.defaultMessage
    let text := replaceAll template "{name}" b.name
    let text :=
      if pyTruthy b.username then
        text ++ " (@" ++ stripAt ((b.username).getD "") ++ ")"
      else text
    let s1 := { s with settings := st.2 }
    let outcome : DispatchResult :=
      match transport chatId text with
      | Except.ok _ => ⟨[(chatId, text)], []⟩
      | Except.error e =>
        ⟨[], ["Failed to send message to " ++ toString chatId ++ ": " ++ e]⟩
    (s1, outcome)

/-- Dispatch of one fired timer by the scheduler loop: invoke
`send_birthday_message` with the timer's payload and record the attempt;
the outcome of the callback never interrupts the loop. -/
def fire_step (transport : Nat → String → Except String Unit)
    (acc : SysState × List (JobId × DispatchResult)) (t : STimer) :
    SysState × List (JobId × DispatchResult) :=
  let r := send_birthday_message acc.1 transport t.payloadBid t.payloadKind
  (r.1, acc.2 ++ [(t.jid, r.2)])

/-- APScheduler firing of due `DateTrigger` jobs at instant `now`: each
pending timer whose instant has arrived is removed from the pending set
and its callback `send_birthday_message` is invoked once; every due timer
is dispatched regardless of the outcomes of earlier dispatches. -/
def fire_due (s : SysState) (now : Int)
    (transport : Nat → String → Except String Unit) :
    SysState × List (JobId × DispatchResult) :=
  (s.sched.filter (fun t => t.runAt ≤ now)).foldl (fire_step transport)
    ({ s with sched := s.sched.filter (fun t => ¬ t.runAt ≤ now) }, [])

/-! ## The `/add` conversation state machine (lines 274–447)

Embedding of the aiogram FSM: `AddStates` (name, username, date,
remind_choice, days_before, custom_message) plus the idle state and a
state belonging to another conversation flow.  `FSMContext` data persists
across `set_state` and is erased only by `state.clear()`.  Command
handlers (`cmd_add`, `cmd_delete`, ...) are registered before the
state-filtered handlers, so a command fires in any state; `cmd_add` moves
to `AddStates.name` without clearing data.  Handlers of other flows that
finish with `state.clear()` are modelled by `otherDone`. -/

/-- The three accepted answers of the remind-choice keyboard:
`"В день"`, `"За N дней"`, `"И то, и то"`. -/
inductive RChoice where
  | onDay
  | beforeN
  | both
deriving DecidableEq, Repr

/-- Conversation position: idle, one of `AddStates`, or inside another
flow's states. -/
inductive FlowSt where
  | idle
  | stName
  | stUsername
  | stDate
  | stRemindChoice
  | stDaysBefore
  | stCustomMessage
  | otherFlow
deriving DecidableEq, Repr

/-- `FSMContext` data accumulated by `state.update_data` during `/add`. -/
structure SessData where
  name : Option String
  username : Option (Option String)
  bdate : Option Date
  remindChoice : Option RChoice
  daysBefore : Option Nat
deriving DecidableEq, Repr

/-- Empty session data (fresh context / after `state.clear()`). -/
def emptyData : SessData := ⟨none, none, none, none, none⟩

/-- A conversation configuration: FSM state plus context data. -/
structure Config where
  st : FlowSt
  data : SessData
deriving DecidableEq, Repr

/-- One inbound update, already classified the way aiogram dispatches it:
commands are matched by the earlier-registered command handlers in any
state; a plain text message reaches the handler filtered on the current
state (with `parse_date` / `int` / keyboard-filter success or failure
distinguished). -/
inductive Inp where
  | cmdAdd
  | cmdOtherFlow
  | otherDone
  | txtName (s : String)
  | txtUsername (u : Option String)
  | txtDateOk (d : Date)
  | txtDateBad
  | txtChoice (c : RChoice)
  | txtChoiceOther
  | txtDaysOk (n : Nat)
  | txtDaysBad
  | txtCustom (custom : Option String)
deriving DecidableEq, Repr

/-- The `remind_on_day` / `remind_days_before` columns of the definition
persisted by `add_custom_msg` (lines 410–447). -/
structure PersistedDef where
  remindOnDay : Bool
  remindDays : Option Nat
deriving DecidableEq, Repr

/-- One dispatch step of the conversation: the next configuration, and the
definition persisted by `add_birthday` when the step completes the `/add`
flow.  Mirrors the handlers `cmd_add`, `add_name`, `add_username`,
`add_date`, `add_remind_choice`, `add_days_before`, `add_custom_msg`:
validation failures answer and stay; `add_remind_choice` only accepts the
three keyboard options; `add_days_before` requires `0 ≤ n ≤ 365`;
`add_custom_msg` reads `data["name"]`, `data["username"]`, `data["date"]`,
`data["remind_choice"]` (a missing key raises, persisting nothing) and
`data.get("days_before", None)`, computes
`remind_on_day = choice in ("В день", "И то, и то")` and
`remind_days = days_before if choice in ("За N дней", "И то, и то") else
None`, persists, schedules and clears the context. -/
def stepA (c : Config) (i : Inp) : Config × Option PersistedDef :=
  match i with
  | Inp.cmdAdd => (⟨FlowSt.stName, c.data⟩, none)
  | Inp.cmdOtherFlow => (⟨FlowSt.otherFlow, c.data⟩, none)
  | Inp.otherDone => (⟨FlowSt.idle, emptyData⟩, none)
  | Inp.txtName s =>
    match c.st with
    | FlowSt.stName => (⟨FlowSt.stUsername, { c.data with name := some s }⟩, none)
    | _ => (c, none)
  | Inp.txtUsername u =>
    match c.st with
    | FlowSt.stUsername => (⟨FlowSt.stDate, { c.data with username := some u }⟩, none)
    | _ => (c, none)
  | Inp.txtDateOk d =>
    match c.st with
    | FlowSt.stDate => (⟨FlowSt.stRemindChoice, { c.data with bdate := some d }⟩, none)
    | _ => (c, none)
  | Inp.txtDateBad => (c, none)
  | Inp.txtChoice ch =>
    match c.st with
    | FlowSt.stRemindChoice =>
      if ch = RChoice.beforeN ∨ ch = RChoice.both then
        (⟨FlowSt.stDaysBefore, { c.data with remindChoice := some ch }⟩, none)
      else
        (⟨FlowSt.stCustomMessage, { c.data with remindChoice := some ch }⟩, none)
    | _ => (c, none)
  | Inp.txtChoiceOther => (c, none)
  | Inp.txtDaysOk n =>
    match c.st with
    | FlowSt.stDaysBefore =>
      if n ≤ 365 then
        (⟨FlowSt.stCustomMessage, { c.data with daysBefore := some n }⟩, none)
      else (c, none)
    | _ => (c, none)
  | Inp.txtDaysBad => (c, none)
  | Inp.txtCustom _ =>
    match c.st with
    | FlowSt.stCustomMessage =>
      match c.data.name, c.data.username, c.data.bdate, c.data.remindChoice with
      | some _, some _, some _, some ch =>
        let onDay := ch = RChoice.onDay ∨ ch = RChoice.both
        let rdays :=
          if ch = RChoice.beforeN ∨ ch = RChoice.both then c.data.daysBefore
          else none
        (⟨FlowSt.idle, emptyData⟩, some ⟨onDay, rdays⟩)
      | _, _, _, _ => (c, none)
    | _ => (c, none)

/-- Configurations reachable from a fresh chat context. -/
inductive Reach : Config → Prop where
  | init : Reach ⟨FlowSt.idle, emptyData⟩
  | step (c : Config) (i : Inp) : Reach c → Reach (stepA c i).1

/-! ## Concrete instances used by counterexamples and witnesses -/

/-- A `Europe/Moscow`-style fixed-offset zone (+03:00, no DST since
2014). -/
def moscowModel : Zone := ⟨fun _ => 180, fun _ => 180⟩

/-- A birthday row with a pending timer, used to examine deletion. -/
def exRowDel : BirthdayRow :=
  ⟨1, 5, "Ann", none, ⟨1900, 6, 10⟩, none, true, none, "UTC"⟩

/-- The pending timer of `exRowDel`. -/
def exTimerDel : STimer := ⟨⟨1, JobKind.day, 1000⟩, 1000, 1, JobKind.day⟩

/-- A state holding `exRowDel`, its durable job record and its pending
timer. -/
def exStateDel : SysState :=
  ⟨[exRowDel], [], [⟨⟨1, JobKind.day, 1000⟩, 1, 1000, JobKind.day⟩], [exTimerDel]⟩

/-- A definition with fire-on-day and a 3-day advance reminder whose next
occurrence (2025-03-31) sits just after the Berlin spring DST transition
while the advance date (2025-03-28) sits before it. -/
def exRowDst : BirthdayRow :=
  ⟨7, 5, "Ann", none, ⟨1900, 3, 31⟩, some 3, true, none, "Europe/Berlin"⟩

/-- A store containing only `exRowDst`, with no jobs or timers yet. -/
def exStateDst : SysState := ⟨[exRowDst], [], [], []⟩

/-- A stored job record used to exercise rehydration. -/
def exJobRehydrate : Job := ⟨⟨1, JobKind.day, 1000⟩, 1, 1000, JobKind.day⟩

/-- A state with one birthday and one stored unexpired job record, and an
empty scheduler (as after a restart). -/
def exStateRehydrate : SysState := ⟨[exRowDel], [], [exJobRehydrate], []⟩

/-- A birthday row with a custom message and a handle, for the rendering
claims. -/
def exRowMsg : BirthdayRow :=
  ⟨2, 9, "Bob", some "bob", ⟨1900, 1, 5⟩, none, true, some "Happy {name}! {name}!", "UTC"⟩

/-- A state holding `exRowMsg` and explicit chat settings for chat 9. -/
def exStateMsg : SysState :=
  ⟨[exRowMsg], [⟨9, "UTC", "Default for {name}"⟩], [], []⟩

/-- A transport that always succeeds. -/
def trOk : Nat → String → Except String Unit := fun _ _ => Except.ok ()

/-- A transport that always fails with `"boom"`. -/
def trFail : Nat → String → Except String Unit := fun _ _ => Except.error "boom"

/-! ## Helper lemmas -/

/-- `date(y, m, d)` succeeds exactly on in-range triples. -/
theorem mkDate_valid (y : Int) (m d : Nat) (hm1 : 1 ≤ m) (hm2 : m ≤ 12)
    (hd1 : 1 ≤ d) (hd : d ≤ daysInMonth y m) :
    mkDate y m d = some ⟨y, m, d⟩ := by
  unfold mkDate
  rw [if_pos ⟨hm1, hm2, hd1, hd⟩]

/-- Year 1900 is a non-leap year, so a day count valid in 1900 is valid in
every year. -/
theorem daysInMonth_1900_le (y : Int) (m : Nat) (hm1 : 1 ≤ m) (hm2 : m ≤ 12) :
    daysInMonth 1900 m ≤ daysInMonth y m := by
  have h1900 : isLeap 1900 = false := by decide
  interval_cases m <;>
    simp only [daysInMonth, h1900, Bool.false_eq_true, if_false] <;>
    first
      | omega
      | (split <;> omega)

/-! ## Claim C1 -/

/-- Claim C1, counterexample: with zone UTC, birthday June 10, and now =
2025-06-10 10:00 local time, the composed local occurrence 2025-06-10
09:00 is earlier than `now`, so the claim requires the following year's
date (2026-06-10 09:00); the code instead returns the same-year instant,
because `next_occurrence` compares civil dates only (`try_date <
now.date()`), never the composed 09:00 instant. -/
theorem c1_counterexample :
    next_occurrence ⟨1900, 6, 10⟩ utcZone ⟨2025, 6, 10⟩
        = some (localize utcZone (toAbsMin ⟨2025, 6, 10⟩ 540))
      ∧ to_utc (localize utcZone (toAbsMin ⟨2025, 6, 10⟩ 540))
          ≤ toAbsMin ⟨2025, 6, 10⟩ 600 - utcZone.offsetAtLocal (toAbsMin ⟨2025, 6, 10⟩ 600)
      ∧ ¬ next_occurrence ⟨1900, 6, 10⟩ utcZone ⟨2025, 6, 10⟩
          = some (localize utcZone (toAbsMin ⟨2026, 6, 10⟩ 540)) := by
  decide

/-- Claim C1, amended: `next_occurrence` composes 09:00 local on the
(month, day) date of now's year when that civil date is on or after now's
local civil date, and advances to the following year exactly when that
civil date is strictly before now's local civil date — the comparison is
by civil date only, so on the (month, day) date itself the returned
instant may be at or before `now` (namely once now's local time has
passed 09:00). -/
theorem c1_amended (b : Date) (z : Zone) (nowD : Date) (t t2 : Date)
    (h1 : mkDate nowD.y b.m b.d = some t)
    (h2 : mkDate (nowD.y + 1) b.m b.d = some t2) :
    next_occurrence b z nowD
      = some (localize z (toAbsMin (if dateLt t nowD then t2 else t) 540)) := by
  unfold next_occurrence
  rw [h1]
  by_cases hlt : dateLt t nowD = true
  · simp only [hlt, if_true, h2]
  · simp only [Bool.not_eq_true] at hlt
    simp only [hlt, Bool.false_eq_true, if_false]

/-- Claim C1, witness: the amended statement applied at zone UTC,
birthday June 10, now's local date 2025-06-10. -/
theorem c1_amended_witness :
    mkDate 2025 6 10 = some ⟨2025, 6, 10⟩
      ∧ mkDate 2026 6 10 = some ⟨2026, 6, 10⟩
      ∧ next_occurrence ⟨1900, 6, 10⟩ utcZone ⟨2025, 6, 10⟩
          = some (localize utcZone (toAbsMin
              (if dateLt ⟨2025, 6, 10⟩ ⟨2025, 6, 10⟩ then ⟨2026, 6, 10⟩
               else ⟨2025, 6, 10⟩) 540)) :=
  ⟨by decide, by decide,
   c1_amended ⟨1900, 6, 10⟩ utcZone ⟨2025, 6, 10⟩ ⟨2025, 6, 10⟩ ⟨2026, 6, 10⟩
     (by decide) (by decide)⟩

/-! ## Claim C6 -/

/-- Claim C6, counterexample: Feb 29 forms a valid calendar date in leap
years, yet `parse_date` rejects `"29.02"` (strptime's `%d.%m` validates
against its default year 1900, which is not a leap year), and
`next_occurrence` on Feb 29 raises `ValueError` (embedded as `none`) when
now's year is the non-leap 2025 — there is no fallback to a nearest valid
representation. -/
theorem c6_counterexample :
    parse_date_dm 29 2 = none
      ∧ next_occurrence ⟨1900, 2, 29⟩ utcZone ⟨2025, 1, 10⟩ = none := by
  decide

/-- Claim C6, amended: `next_occurrence` returns an instant without
raising for every (month, day) pair that is valid in year 1900 — i.e. all
valid pairs except Feb 29 — in every zone and at every now, and
`parse_date` accepts exactly those pairs in `DD.MM` form; for Feb 29,
`next_occurrence` raises (`none`) whenever now's year is not a leap
year. -/
theorem c6_amended (m d : Nat) (z : Zone) (nowD : Date)
    (hm1 : 1 ≤ m) (hm2 : m ≤ 12) (hd1 : 1 ≤ d)
    (hd2 : d ≤ daysInMonth 1900 m) :
    (next_occurrence ⟨1900, m, d⟩ z nowD).isSome = true
      ∧ parse_date_dm d m = some ⟨1900, m, d⟩
      ∧ (isLeap nowD.y = false → next_occurrence ⟨1900, 2, 29⟩ z nowD = none) := by
  refine ⟨?_, ?_, ?_⟩
  · unfold next_occurrence
    rw [mkDate_valid nowD.y m d hm1 hm2 hd1 (le_trans hd2 (daysInMonth_1900_le nowD.y m hm1 hm2))]
    by_cases hlt : dateLt ⟨nowD.y, m, d⟩ nowD = true
    · simp only [hlt, if_true,
        mkDate_valid (nowD.y + 1) m d hm1 hm2 hd1
          (le_trans hd2 (daysInMonth_1900_le (nowD.y + 1) m hm1 hm2)),
        Option.isSome_some]
    · simp only [Bool.not_eq_true] at hlt
      simp only [hlt, Bool.false_eq_true, if_false, Option.isSome_some]
  · unfold parse_date_dm
    rw [mkDate_valid 1900 m d hm1 hm2 hd1 hd2]
  · intro hleap
    unfold next_occurrence
    have h29 : mkDate nowD.y 2 29 = none := by
      unfold mkDate
      rw [if_neg]
      simp only [daysInMonth, hleap, Bool.false_eq_true, if_false]
      omega
    rw [h29]

/-- Claim C6, witness: the amended statement applied at (month, day) =
(6, 10), zone UTC, now's local date 2025-06-10. -/
theorem c6_amended_witness :
    (next_occurrence ⟨1900, 6, 10⟩ utcZone ⟨2025, 6, 10⟩).isSome = true
      ∧ parse_date_dm 10 6 = some ⟨1900, 6, 10⟩
      ∧ (isLeap 2025 = false → next_occurrence ⟨1900, 2, 29⟩ utcZone ⟨2025, 6, 10⟩ = none) :=
  c6_amended 6 10 utcZone ⟨2025, 6, 10⟩ (by decide) (by decide) (by decide) (by decide)

/-! ## Claim C10 -/

/-- Claim C10: when `send_birthday_message` is invoked with a definition
id no longer present in the store, it returns at the guard immediately:
the state is unchanged, nothing is delivered and nothing is logged. -/
theorem c10_missing_definition_noop (s : SysState)
    (tr : Nat → String → Except String Unit) (bid : Nat) (kind : JobKind)
    (hb : get_birthday s bid = none) :
    send_birthday_message s tr bid kind = (s, ⟨[], []⟩) := by
  unfold send_birthday_message
  rw [hb]

/-- Claim C10, witness: firing id 3 against an empty store is a silent
no-op. -/
theorem c10_witness :
    get_birthday ⟨[], [], [], []⟩ 3 = none
      ∧ send_birthday_message ⟨[], [], [], []⟩ trOk 3 JobKind.day
          = (⟨[], [], [], []⟩, ⟨[], []⟩) :=
  ⟨rfl, c10_missing_definition_noop ⟨[], [], [], []⟩ trOk 3 JobKind.day rfl⟩

/-! ## Claim C2 -/

/-- Claim C2, counterexample: deleting definition 1 (owned by chat 5)
removes its row and its durable job record, but its pending in-process
timer survives the whole delete operation — `delete_choose` never calls
into the scheduler, so nothing is cancelled synchronously and the timer
will still fire. -/
theorem c2_counterexample :
    (delete_flow exStateDel 1 5).birthdays = []
      ∧ (delete_flow exStateDel 1 5).jobs = []
      ∧ (delete_flow exStateDel 1 5).sched = [exTimerDel] := by
  decide

/-- Claim C2, amended: completing the delete operation removes the
definition and all of its durable job records but cancels no pending
in-process timer (the scheduler set is untouched); a leftover timer for
the deleted definition still fires, but its dispatch finds no definition
and is a silent no-op, so zero messages are delivered for the definition
afterward. -/
theorem c2_amended (s : SysState) (bid chatId : Nat)
    (hex : ∃ b ∈ s.birthdays, b.id = bid ∧ b.chatId = chatId)
    (huniq : ∀ b ∈ s.birthdays, b.id = bid → b.chatId = chatId) :
    (∀ b ∈ (delete_flow s bid chatId).birthdays, b.id ≠ bid)
      ∧ (∀ j ∈ (delete_flow s bid chatId).jobs, j.birthdayId ≠ bid)
      ∧ (delete_flow s bid chatId).sched = s.sched
      ∧ ∀ (tr : Nat → String → Except String Unit) (kind : JobKind),
          send_birthday_message (delete_flow s bid chatId) tr bid kind
            = (delete_flow s bid chatId, ⟨[], []⟩) := by
  have hok : s.birthdays.any (fun b => b.id == bid && b.chatId == chatId) = true := by
    rw [List.any_eq_true]
    obtain ⟨b, hb, h1, h2⟩ := hex
    exact ⟨b, hb, by simp [h1, h2]⟩
  have hflow : delete_flow s bid chatId =
      { s with birthdays := s.birthdays.filter (fun b => ¬ (b.id = bid ∧ b.chatId = chatId)),
               jobs := remove_jobs_for_birthday s.jobs bid } := by
    unfold delete_flow delete_birthday
    simp only [hok, if_true]
  have hbd : ∀ b ∈ (delete_flow s bid chatId).birthdays, b.id ≠ bid := by
    intro b hb hid
    rw [hflow] at hb
    simp only [List.mem_filter, decide_not, Bool.not_eq_eq_eq_not, Bool.not_true,
      decide_eq_false_iff_not] at hb
    exact hb.2 ⟨hid, huniq b hb.1 hid⟩
  have hnone : get_birthday (delete_flow s bid chatId) bid = none := by
    unfold get_birthday
    rw [List.find?_eq_none]
    intro b hb
    simp only [beq_iff_eq]
    exact hbd b hb
  refine ⟨hbd, ?_, ?_, ?_⟩
  · intro j hj
    rw [hflow] at hj
    simp only [remove_jobs_for_birthday, List.mem_filter, decide_not,
      Bool.not_eq_eq_eq_not, Bool.not_true, decide_eq_false_iff_not] at hj
    exact hj.2
  · rw [hflow]
  · intro tr kind
    unfold send_birthday_message
    rw [hnone]

/-- Claim C2, witness: the amended statement applied to the concrete
state `exStateDel`. -/
theorem c2_amended_witness :
    (∃ b ∈ exStateDel.birthdays, b.id = 1 ∧ b.chatId = 5)
      ∧ ((∀ b ∈ (delete_flow exStateDel 1 5).birthdays, b.id ≠ 1)
          ∧ (∀ j ∈ (delete_flow exStateDel 1 5).jobs, j.birthdayId ≠ 1)
          ∧ (delete_flow exStateDel 1 5).sched = exStateDel.sched
          ∧ ∀ (tr : Nat → String → Except String Unit) (kind : JobKind),
              send_birthday_message (delete_flow exStateDel 1 5) tr 1 kind
                = (delete_flow exStateDel 1 5, ⟨[], []⟩)) :=
  ⟨by decide, c2_amended exStateDel 1 5 (by decide) (by decide)⟩

/-! ## Claim C3 -/

/-- The pytz-aware day subtraction shifts the absolute instant by exactly
`n` times 24 hours of elapsed time, because the offset attached at the
on-day localization is carried over unchanged. -/
theorem to_utc_awareSubDays (a : Aware) (n : Nat) :
    to_utc (awareSubDays a n) = to_utc a - (n : Int) * 1440 := by
  show a.naiveMin - Int.ofNat n * 1440 - a.offMin = a.naiveMin - a.offMin - (n : Int) * 1440
  have hcast : Int.ofNat n = (n : Int) := rfl
  rw [hcast]
  ring

/-- `INSERT OR IGNORE` appends the row when the id is not yet present. -/
theorem add_job_not_present (jobs : List Job) (jid : JobId) (bid : Nat)
    (runAt : Int) (kind : JobKind)
    (h : jobs.any (fun j => j.jid == jid) = false) :
    add_job jobs jid bid runAt kind = jobs ++ [⟨jid, bid, runAt, kind⟩] := by
  unfold add_job
  rw [h]
  simp

/-- The jobs table after `register` is exactly `add_job`. -/
theorem register_jobs (s : SysState) (jid : JobId) (bid : Nat) (runAt : Int)
    (kind : JobKind) :
    (register s jid bid runAt kind).jobs = add_job s.jobs jid bid runAt kind := rfl

/-- `register` leaves the birthdays table unchanged. -/
theorem register_birthdays (s : SysState) (jid : JobId) (bid : Nat)
    (runAt : Int) (kind : JobKind) :
    (register s jid bid runAt kind).birthdays = s.birthdays := rfl

/-- When the scheduler has no job under the id, `register` appends the
timer. -/
theorem register_sched_not_present (s : SysState) (jid : JobId) (bid : Nat)
    (runAt : Int) (kind : JobKind)
    (h : s.sched.any (fun t => t.jid == jid) = false) :
    (register s jid bid runAt kind).sched = s.sched ++ [⟨jid, runAt, bid, kind⟩] := by
  show (if s.sched.any (fun t => t.jid == jid) = true then s.sched
        else s.sched ++ [⟨jid, runAt, bid, kind⟩]) = _
  rw [h]
  simp

/-- Claim C3, counterexample: definition with date March 31, zone
`Europe/Berlin`, offset-before-days 3, fire-on-day true, now
2025-03-20.  Two firing records are produced, but the before record falls
at 2025-03-28 08:00 local time, not 09:00: the code subtracts
`timedelta(days=3)` from the pytz-localized on-day datetime, which keeps
the CEST (+02:00) offset attached on 2025-03-31 even though 2025-03-28 is
CET (+01:00), i.e. it computes fixed elapsed seconds; the DST-respecting
instant (localizing 2025-03-28 09:00 in the zone) is 60 minutes later
than the one recorded. -/
theorem c3_counterexample :
    (schedule_for_birthday exRowDst berlinModel ⟨2025, 3, 20⟩ exStateDst).map
        (fun s => s.jobs.map (fun j => (j.kind, j.runAt)))
      = some [(JobKind.day, 29056740), (JobKind.before, 29052420)]
      ∧ localMinuteOfDay berlinModel 29056740 = 540
      ∧ localMinuteOfDay berlinModel 29052420 = 480
      ∧ to_utc (localize berlinModel (toAbsMin ⟨2025, 3, 28⟩ 540)) = 29052480 := by
  decide

/-- Claim C3, amended: for a definition with fire-on-day true and
offset-before-days d, scheduling produces exactly two firing records
relative to the same base occurrence — the on-day record at the
occurrence and the before record exactly d × 24 hours of elapsed time
earlier (the pytz-aware subtraction keeps the offset attached at the
on-day localization), which preserves the 09:00 local time-of-day only
when both dates carry the same UTC offset, not across DST transitions. -/
theorem c3_amended (row : BirthdayRow) (z : Zone) (nowD : Date) (d : Nat)
    (s : SysState) (occ : Aware)
    (hon : row.remindOnDay = true) (hd : row.remindDaysBefore = some d)
    (hocc : next_occurrence row.bdate z nowD = some occ)
    (hjobs : ∀ j ∈ s.jobs, j.jid.bid ≠ row.id)
    (hsched : ∀ t ∈ s.sched, t.jid.bid ≠ row.id) :
    ∃ s2, schedule_for_birthday row z nowD s = some s2
      ∧ s2.jobs = s.jobs ++
          [⟨⟨row.id, JobKind.day, to_utc occ⟩, row.id, to_utc occ, JobKind.day⟩,
           ⟨⟨row.id, JobKind.before, to_utc occ - (d : Int) * 1440⟩, row.id,
             to_utc occ - (d : Int) * 1440, JobKind.before⟩]
      ∧ s2.sched = s.sched ++
          [⟨⟨row.id, JobKind.day, to_utc occ⟩, to_utc occ, row.id, JobKind.day⟩,
           ⟨⟨row.id, JobKind.before, to_utc occ - (d : Int) * 1440⟩,
             to_utc occ - (d : Int) * 1440, row.id, JobKind.before⟩] := by
  have hsub : to_utc (awareSubDays occ d) = to_utc occ - (d : Int) * 1440 :=
    to_utc_awareSubDays occ d
  have hjobs1 : s.jobs.any
      (fun j => j.jid == (⟨row.id, JobKind.day, to_utc occ⟩ : JobId)) = false := by
    rw [List.any_eq_false]
    intro j hj
    simp only [beq_iff_eq]
    intro hjid
    exact hjobs j hj (by rw [hjid])
  have hsched1 : s.sched.any
      (fun t => t.jid == (⟨row.id, JobKind.day, to_utc occ⟩ : JobId)) = false := by
    rw [List.any_eq_false]
    intro t ht
    simp only [beq_iff_eq]
    intro htid
    exact hsched t ht (by rw [htid])
  have hrun : schedule_for_birthday row z nowD s
      = some (register
          (register s ⟨row.id, JobKind.day, to_utc occ⟩ row.id (to_utc occ) JobKind.day)
          ⟨row.id, JobKind.before, to_utc (awareSubDays occ d)⟩ row.id
          (to_utc (awareSubDays occ d)) JobKind.before) := by
    unfold schedule_for_birthday
    simp only [hocc, hd, hon, if_true]
  have hXjobs : (register s ⟨row.id, JobKind.day, to_utc occ⟩ row.id (to_utc occ)
        JobKind.day).jobs
      = s.jobs ++ [⟨⟨row.id, JobKind.day, to_utc occ⟩, row.id, to_utc occ, JobKind.day⟩] := by
    rw [register_jobs, add_job_not_present _ _ _ _ _ hjobs1]
  have hXsched : (register s ⟨row.id, JobKind.day, to_utc occ⟩ row.id (to_utc occ)
        JobKind.day).sched
      = s.sched ++ [⟨⟨row.id, JobKind.day, to_utc occ⟩, to_utc occ, row.id, JobKind.day⟩] :=
    register_sched_not_present s _ row.id (to_utc occ) JobKind.day hsched1
  have hjobs2 : (register s ⟨row.id, JobKind.day, to_utc occ⟩ row.id (to_utc occ)
        JobKind.day).jobs.any
      (fun j => j.jid == (⟨row.id, JobKind.before, to_utc (awareSubDays occ d)⟩ : JobId))
      = false := by
    rw [hXjobs, List.any_eq_false]
    intro j hj
    rcases List.mem_append.mp hj with hj' | hj'
    · simp only [beq_iff_eq]
      intro hjid
      exact hjobs j hj' (by rw [hjid])
    · simp only [List.mem_singleton] at hj'
      subst hj'
      simp
  have hsched2 : (register s ⟨row.id, JobKind.day, to_utc occ⟩ row.id (to_utc occ)
        JobKind.day).sched.any
      (fun t => t.jid == (⟨row.id, JobKind.before, to_utc (awareSubDays occ d)⟩ : JobId))
      = false := by
    rw [hXsched, List.any_eq_false]
    intro t ht
    rcases List.mem_append.mp ht with ht' | ht'
    · simp only [beq_iff_eq]
      intro htid
      exact hsched t ht' (by rw [htid])
    · simp only [List.mem_singleton] at ht'
      subst ht'
      simp
  refine ⟨_, hrun, ?_, ?_⟩
  · rw [register_jobs, add_job_not_present _ _ _ _ _ hjobs2, hXjobs, hsub]
    simp
  · rw [register_sched_not_present _ _ _ _ _ hsched2, hXsched, hsub]
    simp

/-- Claim C3, witness: the amended statement applied to the concrete
Berlin scenario `exRowDst`. -/
theorem c3_amended_witness :
    exRowDst.remindOnDay = true
      ∧ exRowDst.remindDaysBefore = some 3
      ∧ next_occurrence exRowDst.bdate berlinModel ⟨2025, 3, 20⟩ = some ⟨29056860, 120⟩
      ∧ ∃ s2, schedule_for_birthday exRowDst berlinModel ⟨2025, 3, 20⟩ exStateDst = some s2
          ∧ s2.jobs = [⟨⟨7, JobKind.day, 29056740⟩, 7, 29056740, JobKind.day⟩,
              ⟨⟨7, JobKind.before, 29052420⟩, 7, 29052420, JobKind.before⟩]
          ∧ s2.sched = [⟨⟨7, JobKind.day, 29056740⟩, 29056740, 7, JobKind.day⟩,
              ⟨⟨7, JobKind.before, 29052420⟩, 29052420, 7, JobKind.before⟩] :=
  ⟨rfl, rfl, by decide,
   c3_amended exRowDst berlinModel ⟨2025, 3, 20⟩ 3 exStateDst ⟨29056860, 120⟩ rfl rfl
     (by decide) (by decide) (by decide)⟩

/-! ## Claim C4 -/

/-- `INSERT OR IGNORE` is a no-op when the id is already present. -/
theorem add_job_present (jobs : List Job) (jid : JobId) (bid : Nat)
    (runAt : Int) (kind : JobKind)
    (h : jobs.any (fun j => j.jid == jid) = true) :
    add_job jobs jid bid runAt kind = jobs := by
  unfold add_job
  rw [if_pos h]

/-- After `add_job`, a row with the id is always present. -/
theorem add_job_has (jobs : List Job) (jid : JobId) (bid : Nat)
    (runAt : Int) (kind : JobKind) :
    (add_job jobs jid bid runAt kind).any (fun j => j.jid == jid) = true := by
  unfold add_job
  by_cases h : jobs.any (fun j => j.jid == jid) = true
  · rw [if_pos h]
    exact h
  · rw [if_neg h]
    simp

/-- `register` is a no-op on the scheduler when the id is already
pending. -/
theorem register_sched_present (s : SysState) (jid : JobId) (bid : Nat)
    (runAt : Int) (kind : JobKind)
    (h : s.sched.any (fun t => t.jid == jid) = true) :
    (register s jid bid runAt kind).sched = s.sched := by
  show (if s.sched.any (fun t => t.jid == jid) = true then s.sched
        else s.sched ++ [⟨jid, runAt, bid, kind⟩]) = _
  rw [if_pos h]

/-- After `register`, the jobs table has a row with the id. -/
theorem register_jobs_has (s : SysState) (jid : JobId) (bid : Nat)
    (runAt : Int) (kind : JobKind) :
    (register s jid bid runAt kind).jobs.any (fun j => j.jid == jid) = true := by
  rw [register_jobs]
  exact add_job_has s.jobs jid bid runAt kind

/-- After `register`, the scheduler has a pending timer with the id. -/
theorem register_sched_has (s : SysState) (jid : JobId) (bid : Nat)
    (runAt : Int) (kind : JobKind) :
    (register s jid bid runAt kind).sched.any (fun t => t.jid == jid) = true := by
  show (if s.sched.any (fun t => t.jid == jid) = true then s.sched
        else s.sched ++ [⟨jid, runAt, bid, kind⟩]).any (fun t => t.jid == jid) = true
  by_cases h : s.sched.any (fun t => t.jid == jid) = true
  · rw [if_pos h]
    exact h
  · rw [if_neg h]
    simp

/-- Registering the same id twice is the same as registering it once. -/
theorem register_register (s : SysState) (jid : JobId) (bid : Nat)
    (runAt : Int) (kind : JobKind) :
    register (register s jid bid runAt kind) jid bid runAt kind
      = register s jid bid runAt kind := by
  have hj := register_jobs_has s jid bid runAt kind
  have ht := register_sched_has s jid bid runAt kind
  show ({ register s jid bid runAt kind with
      jobs := add_job (register s jid bid runAt kind).jobs jid bid runAt kind,
      sched := if (register s jid bid runAt kind).sched.any (fun t => t.jid == jid) = true
               then (register s jid bid runAt kind).sched
               else (register s jid bid runAt kind).sched ++ [⟨jid, runAt, bid, kind⟩] }
    : SysState) = register s jid bid runAt kind
  rw [add_job_present _ _ _ _ _ hj, if_pos ht]

/-- The dispatch-attempt ids of the firing fold are the timers' ids, in
order, appended to the accumulator's. -/
theorem fireFold_map_fst (tr : Nat → String → Except String Unit)
    (due : List STimer) :
    ∀ (acc : SysState × List (JobId × DispatchResult)),
      ((due.foldl (fire_step tr) acc).2).map Prod.fst
        = acc.2.map Prod.fst ++ due.map (fun t => t.jid) := by
  induction due with
  | nil => intro acc; simp
  | cons t ts ih =>
    intro acc
    rw [List.foldl_cons, ih]
    simp [fire_step]

/-- The dispatch attempts of a firing round are exactly the due timers,
by id and in order. -/
theorem fire_due_map_fst (s : SysState) (now : Int)
    (tr : Nat → String → Except String Unit) :
    ((fire_due s now tr).2).map Prod.fst
      = (s.sched.filter (fun t => t.runAt ≤ now)).map (fun t => t.jid) := by
  unfold fire_due
  rw [fireFold_map_fst]
  simp

/-- Claim C4: registration is idempotent.  Registering twice with the
same id equals registering once; starting from a state without the id it
leaves exactly one durable job row and exactly one pending timer with
that id, and a firing round whose instant has arrived dispatches that id
exactly once. -/
theorem c4_register_idempotent (s : SysState) (jid : JobId) (bid : Nat)
    (runAt : Int) (kind : JobKind) (now : Int)
    (tr : Nat → String → Except String Unit)
    (hj : ∀ j ∈ s.jobs, j.jid ≠ jid) (ht : ∀ t ∈ s.sched, t.jid ≠ jid)
    (hnow : runAt ≤ now) :
    register (register s jid bid runAt kind) jid bid runAt kind
        = register s jid bid runAt kind
      ∧ ((register (register s jid bid runAt kind) jid bid runAt kind).jobs.filter
            (fun j => j.jid == jid)).length = 1
      ∧ ((register (register s jid bid runAt kind) jid bid runAt kind).sched.filter
            (fun t => t.jid == jid)).length = 1
      ∧ (((fire_due (register (register s jid bid runAt kind) jid bid runAt kind) now tr).2.map
            Prod.fst).count jid) = 1 := by
  have hrr := register_register s jid bid runAt kind
  have hanyj : s.jobs.any (fun j => j.jid == jid) = false := by
    rw [List.any_eq_false]
    intro j hjm
    simp only [beq_iff_eq]
    exact hj j hjm
  have hanyt : s.sched.any (fun t => t.jid == jid) = false := by
    rw [List.any_eq_false]
    intro t htm
    simp only [beq_iff_eq]
    exact ht t htm
  have hjobs : (register s jid bid runAt kind).jobs = s.jobs ++ [⟨jid, bid, runAt, kind⟩] := by
    rw [register_jobs, add_job_not_present _ _ _ _ _ hanyj]
  have hsched : (register s jid bid runAt kind).sched = s.sched ++ [⟨jid, runAt, bid, kind⟩] :=
    register_sched_not_present s jid bid runAt kind hanyt
  have hfj : s.jobs.filter (fun j => j.jid == jid) = [] := by
    rw [List.filter_eq_nil]
    intro j hjm
    simp only [beq_iff_eq]
    exact hj j hjm
  have hft : s.sched.filter (fun t => t.jid == jid) = [] := by
    rw [List.filter_eq_nil]
    intro t htm
    simp only [beq_iff_eq]
    exact ht t htm
  refine ⟨hrr, ?_, ?_, ?_⟩
  · rw [hrr, hjobs, List.filter_append, hfj]
    simp
  · rw [hrr, hsched, List.filter_append, hft]
    simp
  · rw [hrr, fire_due_map_fst, hsched, List.filter_append, List.map_append,
      List.count_append]
    have h1 : ((s.sched.filter (fun t => t.runAt ≤ now)).map (fun t => t.jid)).count jid
        = 0 := by
      rw [List.count_eq_zero]
      intro hmem
      obtain ⟨t, htf, hte⟩ := List.mem_map.mp hmem
      exact ht t (List.mem_of_mem_filter htf) hte
    rw [h1]
    simp [hnow]

/-- Claim C4, witness: double registration of id (1, day, 50) into the
empty state, fired at instant 100. -/
theorem c4_witness :
    (∀ j ∈ (⟨[], [], [], []⟩ : SysState).jobs, j.jid ≠ (⟨1, JobKind.day, 50⟩ : JobId))
      ∧ (50 : Int) ≤ 100
      ∧ (register (register ⟨[], [], [], []⟩ ⟨1, JobKind.day, 50⟩ 1 50 JobKind.day)
            ⟨1, JobKind.day, 50⟩ 1 50 JobKind.day
          = register ⟨[], [], [], []⟩ ⟨1, JobKind.day, 50⟩ 1 50 JobKind.day
        ∧ ((register (register ⟨[], [], [], []⟩ ⟨1, JobKind.day, 50⟩ 1 50 JobKind.day)
              ⟨1, JobKind.day, 50⟩ 1 50 JobKind.day).jobs.filter
              (fun j => j.jid == (⟨1, JobKind.day, 50⟩ : JobId))).length = 1
        ∧ ((register (register ⟨[], [], [], []⟩ ⟨1, JobKind.day, 50⟩ 1 50 JobKind.day)
              ⟨1, JobKind.day, 50⟩ 1 50 JobKind.day).sched.filter
              (fun t => t.jid == (⟨1, JobKind.day, 50⟩ : JobId))).length = 1
        ∧ (((fire_due (register (register ⟨[], [], [], []⟩ ⟨1, JobKind.day, 50⟩ 1 50
              JobKind.day) ⟨1, JobKind.day, 50⟩ 1 50 JobKind.day) 100 trOk).2.map
              Prod.fst).count ⟨1, JobKind.day, 50⟩) = 1) :=
  ⟨by decide, by decide,
   c4_register_idempotent ⟨[], [], [], []⟩ ⟨1, JobKind.day, 50⟩ 1 50 JobKind.day 100 trOk
     (by decide) (by decide) (by decide)⟩

/-! ## Claim C5 -/

/-- Rehydration skips a job whose run instant is already past. -/
theorem rehydrate_step_skip_past (a : SysState) (now : Int) (j : Job)
    (h : j.runAt < now) : rehydrate_step a now j = a := by
  unfold rehydrate_step
  rw [if_pos h]

/-- Rehydration silently skips a job whose definition is missing. -/
theorem rehydrate_step_skip_missing (a : SysState) (now : Int) (j : Job)
    (h : ¬ j.runAt < now) (hb : get_birthday a j.birthdayId = none) :
    rehydrate_step a now j = a := by
  unfold rehydrate_step
  rw [if_neg h, hb]

/-- Rehydration skips a job whose id is already pending. -/
theorem rehydrate_step_skip_present (a : SysState) (now : Int) (j : Job)
    (b : BirthdayRow) (h : ¬ j.runAt < now)
    (hb : get_birthday a j.birthdayId = some b)
    (hp : a.sched.any (fun t => t.jid == j.jid) = true) :
    rehydrate_step a now j = a := by
  unfold rehydrate_step
  rw [if_neg h, hb]
  simp only [hp, if_true]

/-- Rehydration registers an unexpired job with an existing definition
and a fresh id under its stored id, instant and payload. -/
theorem rehydrate_step_add (a : SysState) (now : Int) (j : Job)
    (b : BirthdayRow) (h : ¬ j.runAt < now)
    (hb : get_birthday a j.birthdayId = some b)
    (hp : a.sched.any (fun t => t.jid == j.jid) = false) :
    rehydrate_step a now j
      = { a with sched := a.sched ++ [⟨j.jid, j.runAt, j.birthdayId, j.kind⟩] } := by
  unfold rehydrate_step
  rw [if_neg h, hb]
  simp only [hp, Bool.false_eq_true, if_false]

/-- Rehydration never touches the birthdays table. -/
theorem rehydrate_step_birthdays (a : SysState) (now : Int) (j : Job) :
    (rehydrate_step a now j).birthdays = a.birthdays := by
  unfold rehydrate_step
  repeat' split
  all_goals rfl

/-- Rehydration never touches the jobs table. -/
theorem rehydrate_step_jobs (a : SysState) (now : Int) (j : Job) :
    (rehydrate_step a now j).jobs = a.jobs := by
  unfold rehydrate_step
  repeat' split
  all_goals rfl

/-- Birthday lookups are unchanged by a rehydration step. -/
theorem rehydrate_step_get_birthday (a : SysState) (now : Int) (j : Job)
    (bid : Nat) :
    get_birthday (rehydrate_step a now j) bid = get_birthday a bid := by
  unfold get_birthday
  rw [rehydrate_step_birthdays]

/-- The birthdays table survives the whole rehydration fold. -/
theorem rehydrateFold_birthdays (now : Int) (js : List Job) :
    ∀ acc : SysState,
      (js.foldl (fun a j => rehydrate_step a now j) acc).birthdays = acc.birthdays := by
  induction js with
  | nil => intro acc; rfl
  | cons j ts ih =>
    intro acc
    rw [List.foldl_cons, ih, rehydrate_step_birthdays]

/-- The jobs table survives the whole rehydration fold. -/
theorem rehydrateFold_jobs (now : Int) (js : List Job) :
    ∀ acc : SysState,
      (js.foldl (fun a j => rehydrate_step a now j) acc).jobs = acc.jobs := by
  induction js with
  | nil => intro acc; rfl
  | cons j ts ih =>
    intro acc
    rw [List.foldl_cons, ih, rehydrate_step_jobs]

/-- Ids pending after the rehydration fold: those already pending, plus
the ids of stored unexpired jobs whose definition exists. -/
theorem rehydrateFold_mem (now : Int) (js : List Job) :
    ∀ (acc : SysState) (i : JobId),
      (∃ t ∈ (js.foldl (fun a j => rehydrate_step a now j) acc).sched, t.jid = i)
        ↔ (∃ t ∈ acc.sched, t.jid = i)
          ∨ (∃ j ∈ js, j.jid = i ∧ ¬ j.runAt < now
              ∧ (get_birthday acc j.birthdayId).isSome = true) := by
  induction js with
  | nil =>
    intro acc i
    simp
  | cons j ts ih =>
    intro acc i
    rw [List.foldl_cons, ih]
    simp only [rehydrate_step_get_birthday, List.mem_cons]
    by_cases hlt : j.runAt < now
    · rw [rehydrate_step_skip_past acc now j hlt]
      constructor
      · rintro (h | h)
        · exact Or.inl h
        · exact Or.inr (by obtain ⟨j', hj', rest⟩ := h; exact ⟨j', Or.inr hj', rest⟩)
      · rintro (h | ⟨j', hj', hjid, hlt', hbs⟩)
        · exact Or.inl h
        · rcases hj' with rfl | hj'
          · exact absurd hlt hlt'
          · exact Or.inr ⟨j', hj', hjid, hlt', hbs⟩
    · cases hb : get_birthday acc j.birthdayId with
      | none =>
        rw [rehydrate_step_skip_missing acc now j hlt hb]
        constructor
        · rintro (h | ⟨j', hj', rest⟩)
          · exact Or.inl h
          · exact Or.inr ⟨j', Or.inr hj', rest⟩
        · rintro (h | ⟨j', hj', hjid, hlt', hbs⟩)
          · exact Or.inl h
          · rcases hj' with rfl | hj'
            · rw [hb] at hbs
              simp at hbs
            · exact Or.inr ⟨j', hj', hjid, hlt', hbs⟩
      | some b =>
        by_cases hp : acc.sched.any (fun t => t.jid == j.jid) = true
        · rw [rehydrate_step_skip_present acc now j b hlt hb hp]
          constructor
          · rintro (h | ⟨j', hj', rest⟩)
            · exact Or.inl h
            · exact Or.inr ⟨j', Or.inr hj', rest⟩
          · rintro (h | ⟨j', hj', hjid, hlt', hbs⟩)
            · exact Or.inl h
            · rcases hj' with rfl | hj'
              · left
                obtain ⟨t, htm, hte⟩ := List.any_eq_true.mp hp
                exact ⟨t, htm, by rw [← hjid]; exact beq_iff_eq.mp hte⟩
              · exact Or.inr ⟨j', hj', hjid, hlt', hbs⟩
        · rw [rehydrate_step_add acc now j b hlt hb
            (by rw [← Bool.not_eq_true]; exact hp)]
          constructor
          · rintro (h | ⟨j', hj', rest⟩)
            · simp only [List.mem_append, List.mem_singleton] at h
              obtain ⟨t, htm | htm, hte⟩ := h
              · exact Or.inl ⟨t, htm, hte⟩
              · subst htm
                exact Or.inr ⟨j, Or.inl rfl, hte, hlt, by rw [hb]; rfl⟩
            · exact Or.inr ⟨j', Or.inr hj', rest⟩
          · rintro (⟨t, htm, hte⟩ | ⟨j', hj', hjid, hlt', hbs⟩)
            · exact Or.inl ⟨t, List.mem_append.mpr (Or.inl htm), hte⟩
            · rcases hj' with rfl | hj'
              · exact Or.inl ⟨⟨j'.jid, j'.runAt, j'.birthdayId, j'.kind⟩,
                  List.mem_append.mpr (Or.inr (List.mem_singleton.mpr rfl)), hjid⟩
              · exact Or.inr ⟨j', hj', hjid, hlt', hbs⟩

/-- Every timer pending after the rehydration fold was already pending or
comes verbatim from a stored unexpired job whose definition exists. -/
theorem rehydrateFold_subset (now : Int) (js : List Job) :
    ∀ (acc : SysState) (t : STimer),
      t ∈ (js.foldl (fun a j => rehydrate_step a now j) acc).sched →
      t ∈ acc.sched
        ∨ ∃ j ∈ js, ¬ j.runAt < now ∧ (get_birthday acc j.birthdayId).isSome = true
            ∧ t = ⟨j.jid, j.runAt, j.birthdayId, j.kind⟩ := by
  induction js with
  | nil =>
    intro acc t h
    exact Or.inl h
  | cons j ts ih =>
    intro acc t h
    rw [List.foldl_cons] at h
    rcases ih (rehydrate_step acc now j) t h with h' | ⟨j', hj', hlt', hbs, hte⟩
    · by_cases hlt : j.runAt < now
      · rw [rehydrate_step_skip_past acc now j hlt] at h'
        exact Or.inl h'
      · cases hb : get_birthday acc j.birthdayId with
        | none =>
          rw [rehydrate_step_skip_missing acc now j hlt hb] at h'
          exact Or.inl h'
        | some b =>
          by_cases hp : acc.sched.any (fun t => t.jid == j.jid) = true
          · rw [rehydrate_step_skip_present acc now j b hlt hb hp] at h'
            exact Or.inl h'
          · rw [rehydrate_step_add acc now j b hlt hb
              (by rw [← Bool.not_eq_true]; exact hp)] at h'
            simp only [List.mem_append, List.mem_singleton] at h'
            rcases h' with h'' | h''
            · exact Or.inl h''
            · exact Or.inr ⟨j, List.mem_cons_self j ts, hlt, by rw [hb]; rfl, h''⟩
    · rw [rehydrate_step_get_birthday] at hbs
      exact Or.inr ⟨j', List.mem_cons_of_mem j hj', hlt', hbs, hte⟩

/-- A fold whose every step is a no-op is the identity. -/
theorem rehydrateFold_noop (now : Int) (js : List Job) :
    ∀ acc : SysState, (∀ j ∈ js, rehydrate_step acc now j = acc) →
      js.foldl (fun a j => rehydrate_step a now j) acc = acc := by
  induction js with
  | nil =>
    intro acc _
    rfl
  | cons j ts ih =>
    intro acc h
    rw [List.foldl_cons, h j (List.mem_cons_self j ts)]
    exact ih acc (fun j' hj' => h j' (List.mem_cons_of_mem j hj'))

/-- Claim C5: rehydration at instant `now` registers a pending timer for
exactly the stored firing records that are unexpired (fire instant not
strictly before `now`) and whose owning definition still exists, under
each record's stored id (records with missing definitions and expired
records are skipped); every timer it adds carries a stored record's id,
instant and payload verbatim; and running rehydration twice yields
exactly the state of running it once. -/
theorem c5_rehydration (s : SysState) (now : Int) :
    (∀ i : JobId,
        (∃ t ∈ (reschedule_all_from_db s now).sched, t.jid = i)
          ↔ (∃ t ∈ s.sched, t.jid = i)
            ∨ (∃ j ∈ s.jobs, j.jid = i ∧ ¬ j.runAt < now
                ∧ (get_birthday s j.birthdayId).isSome = true))
      ∧ (∀ t ∈ (reschedule_all_from_db s now).sched,
          t ∈ s.sched
            ∨ ∃ j ∈ s.jobs, ¬ j.runAt < now ∧ (get_birthday s j.birthdayId).isSome = true
                ∧ t = ⟨j.jid, j.runAt, j.birthdayId, j.kind⟩)
      ∧ reschedule_all_from_db (reschedule_all_from_db s now) now
          = reschedule_all_from_db s now := by
  refine ⟨?_, ?_, ?_⟩
  · intro i
    exact rehydrateFold_mem now s.jobs s i
  · intro t ht
    exact rehydrateFold_subset now s.jobs s t ht
  · show (reschedule_all_from_db s now).jobs.foldl
        (fun a j => rehydrate_step a now j) (reschedule_all_from_db s now)
      = reschedule_all_from_db s now
    rw [show (reschedule_all_from_db s now).jobs = s.jobs from
      rehydrateFold_jobs now s.jobs s]
    apply rehydrateFold_noop
    intro j hj
    by_cases hlt : j.runAt < now
    · exact rehydrate_step_skip_past _ now j hlt
    · have hgb : get_birthday (reschedule_all_from_db s now) j.birthdayId
          = get_birthday s j.birthdayId := by
        unfold get_birthday
        rw [show (reschedule_all_from_db s now).birthdays = s.birthdays from
          rehydrateFold_birthdays now s.jobs s]
      cases hb : get_birthday s j.birthdayId with
      | none =>
        exact rehydrate_step_skip_missing _ now j hlt (by rw [hgb, hb])
      | some b =>
        have hmem : ∃ t ∈ (reschedule_all_from_db s now).sched, t.jid = j.jid :=
          (rehydrateFold_mem now s.jobs s j.jid).mpr
            (Or.inr ⟨j, hj, rfl, hlt, by rw [hb]; rfl⟩)
        obtain ⟨t, htm, hte⟩ := hmem
        exact rehydrate_step_skip_present _ now j b hlt (by rw [hgb, hb])
          (List.any_eq_true.mpr ⟨t, htm, beq_iff_eq.mpr hte⟩)

/-- Claim C5, witness: rehydrating `exStateRehydrate` at instant 100
registers the stored unexpired record (1, day, 1000). -/
theorem c5_witness :
    ∃ t ∈ (reschedule_all_from_db exStateRehydrate 100).sched,
      t.jid = (⟨1, JobKind.day, 1000⟩ : JobId) :=
  ((c5_rehydration exStateRehydrate 100).1 ⟨1, JobKind.day, 1000⟩).mpr
    (Or.inr ⟨exJobRehydrate, by decide, by decide, by decide, by decide⟩)

/-! ## Claim C7 -/

/-- `send_birthday_message` never touches the jobs table or the pending
timer set, whatever the transport does. -/
theorem send_preserves (s : SysState) (tr : Nat → String → Except String Unit)
    (bid : Nat) (kind : JobKind) :
    (send_birthday_message s tr bid kind).1.jobs = s.jobs
      ∧ (send_birthday_message s tr bid kind).1.sched = s.sched := by
  unfold send_birthday_message
  repeat' split
  all_goals exact ⟨rfl, rfl⟩

/-- The firing fold never changes the pending timer set it starts from. -/
theorem fireFold_sched (tr : Nat → String → Except String Unit)
    (due : List STimer) :
    ∀ acc : SysState × List (JobId × DispatchResult),
      ((due.foldl (fire_step tr) acc).1).sched = acc.1.sched := by
  induction due with
  | nil => intro acc; rfl
  | cons t ts ih =>
    intro acc
    rw [List.foldl_cons, ih]
    exact (send_preserves acc.1 tr t.payloadBid t.payloadKind).2

/-- After a firing round the pending set is exactly the not-yet-due
timers: fired timers are discarded and none are re-registered. -/
theorem fire_due_sched (s : SysState) (now : Int)
    (tr : Nat → String → Except String Unit) :
    (fire_due s now tr).1.sched = s.sched.filter (fun t => ¬ t.runAt ≤ now) := by
  unfold fire_due
  rw [fireFold_sched]

/-- Claim C7: a transport failure at fire time is caught inside
`send_birthday_message` — the call returns normally with the error
logged, delivers nothing, and re-registers nothing (jobs and timers
unchanged); and a firing round dispatches every due timer exactly once
regardless of outcomes, discarding fired timers and keeping the rest at
their instants. -/
theorem c7_delivery_failure_contained (s : SysState) (now : Int)
    (tr : Nat → String → Except String Unit)
    (bid : Nat) (kind : JobKind) (b : BirthdayRow) (e : String)
    (hb : get_birthday s bid = some b)
    (hfail : ∀ chat text, tr chat text = Except.error e) :
    ((send_birthday_message s tr bid kind).2.sent = []
      ∧ (send_birthday_message s tr bid kind).2.logged
          = ["Failed to send message to " ++ toString b.chatId ++ ": " ++ e]
      ∧ (send_birthday_message s tr bid kind).1.jobs = s.jobs
      ∧ (send_birthday_message s tr bid kind).1.sched = s.sched)
      ∧ ((fire_due s now tr).2.map Prod.fst
          = (s.sched.filter (fun t => t.runAt ≤ now)).map (fun t => t.jid)
        ∧ (fire_due s now tr).1.sched = s.sched.filter (fun t => ¬ t.runAt ≤ now)) := by
  have hsend : send_birthday_message s tr bid kind
      = ({ s with settings := (get_chat_settings s.settings b.chatId).2 },
         ⟨[], ["Failed to send message to " ++ toString b.chatId ++ ": " ++ e]⟩) := by
    unfold send_birthday_message
    simp only [hb, hfail]
  refine ⟨⟨?_, ?_, ?_, ?_⟩, fire_due_map_fst s now tr, fire_due_sched s now tr⟩
  · rw [hsend]
  · rw [hsend]
  · rw [hsend]
  · rw [hsend]

/-- Claim C7, witness: delivery of definition 2's message through the
always-failing transport at instant 100. -/
theorem c7_witness :
    (send_birthday_message exStateMsg trFail 2 JobKind.day).2.sent = []
      ∧ (send_birthday_message exStateMsg trFail 2 JobKind.day).2.logged
          = ["Failed to send message to " ++ toString exRowMsg.chatId ++ ": " ++ "boom"]
      ∧ (fire_due exStateMsg 100 trFail).2.map Prod.fst
          = (exStateMsg.sched.filter (fun t => t.runAt ≤ 100)).map (fun t => t.jid) :=
  ⟨(c7_delivery_failure_contained exStateMsg 100 trFail 2 JobKind.day exRowMsg "boom"
      rfl (fun _ _ => rfl)).1.1,
   (c7_delivery_failure_contained exStateMsg 100 trFail 2 JobKind.day exRowMsg "boom"
      rfl (fun _ _ => rfl)).1.2.1,
   (c7_delivery_failure_contained exStateMsg 100 trFail 2 JobKind.day exRowMsg "boom"
      rfl (fun _ _ => rfl)).2.1⟩

/-! ## Claim C8 -/

/-- The text built by `send_birthday_message` coincides with the text
described by claim C8. -/
theorem render_code_eq_spec (custom : Option String) (dflt name : String)
    (username : Option String) :
    (if pyTruthy username
     then replaceAll (pyOrStr custom dflt) "{name}" name
        ++ " (@" ++ stripAt (username.getD "") ++ ")"
     else replaceAll (pyOrStr custom dflt) "{name}" name)
      = renderSpecC8 custom dflt name username := by
  unfold renderSpecC8 pyOrStr pyTruthy
  cases custom with
  | none =>
    cases username with
    | none => simp
    | some u =>
      by_cases hu : u = ""
      · simp [hu]
      · simp only [hu, if_false]
        rw [if_pos (by simp [hu]), Option.getD_some]
        simp [String.append_assoc]
  | some c =>
    cases username with
    | none => simp
    | some u =>
      by_cases hu : u = ""
      · simp [hu]
      · simp only [hu, if_false]
        rw [if_pos (by simp [hu]), Option.getD_some]
        simp [String.append_assoc]

/-- Claim C8: on a firing payload the dispatcher reloads the definition
and the chat settings from the store as it is at fire time, renders the
definition's custom message if set (else the chat's default template)
with every `{name}` replaced by the definition's name and a
` (@username)` annotation appended when a handle is present, and delivers
exactly that text to the owning chat. -/
theorem c8_render_and_deliver (s : SysState)
    (tr : Nat → String → Except String Unit) (bid : Nat) (kind : JobKind)
    (b : BirthdayRow)
    (hb : get_birthday s bid = some b)
    (hok : ∀ chat text, tr chat text = Except.ok ()) :
    (send_birthday_message s tr bid kind).2.sent =
      [(b.chatId,
        renderSpecC8 b.customMessage
          (get_chat_settings s.settings b.chatId).1.defaultMessage b.name b.username)] := by
  unfold send_birthday_message
  simp only [hb, hok]
  rw [← render_code_eq_spec b.customMessage
    (get_chat_settings s.settings b.chatId).1.defaultMessage b.name b.username]

/-- Claim C8, witness: definition 2 (custom message
`"Happy {name}! {name}!"`, name `"Bob"`, handle `"bob"`, chat 9) renders
and delivers `"Happy Bob! Bob! (@bob)"`. -/
theorem c8_witness :
    get_birthday exStateMsg 2 = some exRowMsg
      ∧ renderSpecC8 exRowMsg.customMessage
          (get_chat_settings exStateMsg.settings exRowMsg.chatId).1.defaultMessage
          exRowMsg.name exRowMsg.username = "Happy Bob! Bob! (@bob)"
      ∧ (send_birthday_message exStateMsg trOk 2 JobKind.day).2.sent =
          [(exRowMsg.chatId,
            renderSpecC8 exRowMsg.customMessage
              (get_chat_settings exStateMsg.settings exRowMsg.chatId).1.defaultMessage
              exRowMsg.name exRowMsg.username)] :=
  ⟨rfl, by decide,
   c8_render_and_deliver exStateMsg trOk 2 JobKind.day exRowMsg rfl (fun _ _ => rfl)⟩

/-! ## Claim C9 -/

/-- Reachability invariant of the `/add` conversation: whenever the
session sits at the custom-message prompt with remind-choice `"За N
дней"` or `"И то, и то"`, a days-before value has been captured. -/
theorem reach_inv (c : Config) (h : Reach c) :
    c.st = FlowSt.stCustomMessage →
      (c.data.remindChoice = some RChoice.beforeN
        ∨ c.data.remindChoice = some RChoice.both) →
      c.data.daysBefore ≠ none := by
  induction h with
  | init =>
    intro h1
    cases h1
  | step c i hr ih =>
    obtain ⟨st, data⟩ := c
    cases i with
    | cmdAdd => intro h1; cases h1
    | cmdOtherFlow => intro h1; cases h1
    | otherDone => intro h1; cases h1
    | txtDateBad => exact ih
    | txtChoiceOther => exact ih
    | txtDaysBad => exact ih
    | txtName s =>
      cases st <;> first | exact ih | (intro h1; cases h1)
    | txtUsername u =>
      cases st <;> first | exact ih | (intro h1; cases h1)
    | txtDateOk d =>
      cases st <;> first | exact ih | (intro h1; cases h1)
    | txtChoice ch =>
      cases ch <;> cases st <;>
        first
          | exact ih
          | (intro h1; cases h1; done)
          | (intro h1 hch; rcases hch with hch | hch <;> cases hch)
    | txtDaysOk n =>
      cases st <;>
        first
          | exact ih
          | (intro h1; cases h1)
          | (by_cases hn : n ≤ 365
             · simp only [stepA, hn, if_true]
               intro h1 hch
               simp
             · simp only [stepA, hn, if_false]
               exact ih)
    | txtCustom t =>
      cases st <;> try exact ih
      obtain ⟨nm, un, bd, rc, db⟩ := data
      cases nm <;> cases un <;> cases bd <;> cases rc <;>
        first
          | exact ih
          | (intro h1; cases h1)

/-- Claim C9: every definition persisted by a reachable completion of the
`/add` conversation has fire-on-day true or a non-null days-before value:
the forbidden state (fire-on-day false and offset null) is never
persisted. -/
theorem c9_persisted_invariant (c : Config) (i : Inp) (c2 : Config)
    (pd : PersistedDef) (hr : Reach c)
    (hstep : stepA c i = (c2, some pd)) :
    pd.remindOnDay = true ∨ pd.remindDays ≠ none := by
  have hinv := reach_inv c hr
  obtain ⟨st, data⟩ := c
  cases i with
  | cmdAdd => simp [stepA] at hstep
  | cmdOtherFlow => simp [stepA] at hstep
  | otherDone => simp [stepA] at hstep
  | txtName s => cases st <;> simp [stepA] at hstep
  | txtUsername u => cases st <;> simp [stepA] at hstep
  | txtDateOk d => cases st <;> simp [stepA] at hstep
  | txtDateBad => simp [stepA] at hstep
  | txtChoice ch =>
    cases ch <;> cases st <;> simp [stepA] at hstep
  | txtChoiceOther => simp [stepA] at hstep
  | txtDaysOk n =>
    cases st <;>
      first
        | (simp [stepA] at hstep; done)
        | (by_cases hn : n ≤ 365 <;> simp [stepA, hn] at hstep)
  | txtDaysBad => simp [stepA] at hstep
  | txtCustom t =>
    cases st <;> try simp [stepA] at hstep
    obtain ⟨nm, un, bd, rc, db⟩ := data
    cases nm with
    | none => simp [stepA] at hstep
    | some nmv =>
    cases un with
    | none => simp [stepA] at hstep
    | some unv =>
    cases bd with
    | none => simp [stepA] at hstep
    | some bdv =>
    cases rc with
    | none => simp [stepA] at hstep
    | some rcv =>
    simp only [stepA, Prod.mk.injEq, Option.some.injEq] at hstep
    obtain ⟨-, hpd⟩ := hstep
    subst hpd
    cases rcv with
    | onDay =>
      left
      simp
    | beforeN =>
      right
      have hdb : db ≠ none := hinv rfl (Or.inl rfl)
      simpa using hdb
    | both =>
      left
      simp

/-- Claim C9, witness: the completed run /add → name → no handle →
10.06 → `"За N дней"` → 3 → default text persists fire-on-day false with
days-before 3, satisfying the invariant. -/
theorem c9_witness :
    (⟨false, some 3⟩ : PersistedDef).remindOnDay = true
      ∨ (⟨false, some 3⟩ : PersistedDef).remindDays ≠ none :=
  c9_persisted_invariant
    ⟨FlowSt.stCustomMessage,
     ⟨some "Ann", some none, some ⟨1900, 6, 10⟩, some RChoice.beforeN, some 3⟩⟩
    (Inp.txtCustom none) ⟨FlowSt.idle, emptyData⟩ ⟨false, some 3⟩
    (Reach.step _ (Inp.txtDaysOk 3)
      (Reach.step _ (Inp.txtChoice RChoice.beforeN)
        (Reach.step _ (Inp.txtDateOk ⟨1900, 6, 10⟩)
          (Reach.step _ (Inp.txtUsername none)
            (Reach.step _ (Inp.txtName "Ann")
              (Reach.step _ Inp.cmdAdd Reach.init))))))
    rfl

end BirthdayBot
